import Mathlib

/-!
Verification of the jormungandr bootstrap and gossip core.

This file gives a shallow embedding of the genesis-block resolution
(`prepare_block_0`, `load_blockchain` in `src/jormungandr/src/start_up/mod.rs`)
and of the gossip dedup/ranking layer
(`src/jormungandr/src/network/sea_bottle/mod.rs`), and proves the spec's
claims about them.
-/

namespace Jormungandr

/-- A chain block. The code treats blocks as opaque values exposing a content
hash (`block0.header.hash()`); we model just the hash and an opaque payload. -/
structure Block where
  hash : Nat
  content : Nat
deriving DecidableEq

/-- Mirror of `settings::Block0Info`: either a local file path holding the
block bytes, or a hash to look up in storage / fetch from the network. -/
inductive Block0Info where
  | Path (path : Nat)
  | Hash (hash : Nat)
deriving DecidableEq

/-- Modelled from the spec: the concrete `Error` enum lives in
`start_up/error.rs`, which is not among the provided sources (only
`mod.rs` constructing `Error::IO` and `Error::ParseError` is). We use the
spec's §7 taxonomy: `IoError` for `Error::IO`, `DeserializeError` for
`Error::ParseError`, `StorageBackendError` for storage connection failures,
and `NotFoundError` for the mapping of a network-fetch failure. -/
inductive StartupError where
  | IoError
  | DeserializeError
  | NotFoundError
  | StorageBackendError
deriving DecidableEq

/-- Outcome of `network::fetch_block`. Per the spec the network collaborator
may fail either because no peer had the block or because the caller-supplied
timeout expired; both are failures of the single fetch. -/
inductive NetOutcome where
  | ok (b : Block)
  | failed
  | timeout
deriving DecidableEq

/-- Result of a resolution run together with instrumentation counters:
`storage_reads` counts `block_exists` / `get_block` queries against the block
store, `network_fetches` counts calls to `network::fetch_block`. -/
structure ResolveTrace where
  result : Except StartupError Block
  storage_reads : Nat
  network_fetches : Nat

/-- Embedding of `prepare_block_0` (start_up/mod.rs). The environment is
passed explicitly: `fileContents` models `File::open` + read (`none` = I/O
error), `deserialize` models `Block::deserialize` (`none` = parse error),
`connectOk` models `storage.connect()`, `store` models
`block_exists`/`get_block` (`some b` = the hash is present and reads back
`b`), and `net` models `network::fetch_block`. -/
def prepare_block_0 (block_0 : Block0Info)
    (fileContents : Nat → Option (List Nat))
    (deserialize : List Nat → Option Block)
    (connectOk : Bool)
    (store : Nat → Option Block)
    (net : Nat → NetOutcome) : ResolveTrace :=
  match block_0 with
  | .Path path =>
      match fileContents path with
      | none => ⟨.error .IoError, 0, 0⟩
      | some bytes =>
          match deserialize bytes with
          | none => ⟨.error .DeserializeError, 0, 0⟩
          | some b => ⟨.ok b, 0, 0⟩
  | .Hash block0_id =>
      if connectOk then
        match store block0_id with
        | some b => ⟨.ok b, 2, 0⟩
        | none =>
            match net block0_id with
            | .ok b => ⟨.ok b, 1, 1⟩
            | .failed => ⟨.error .NotFoundError, 1, 1⟩
            | .timeout => ⟨.error .NotFoundError, 1, 1⟩
      else ⟨.error .StorageBackendError, 0, 0⟩

/-- Claim C1: for a `ByHash` genesis spec whose hash is present in the block
store, `prepare_block_0` returns exactly the stored block, performs no network
fetch (the `net` collaborator is universally quantified and unused), and does
not re-verify the stored block's hash against the requested hash: there is no
hypothesis relating `b.hash` to `h`, and the result is `b` regardless. -/
theorem c1_byhash_storage_hit (h : Nat)
    (fileContents : Nat → Option (List Nat))
    (deserialize : List Nat → Option Block)
    (store : Nat → Option Block) (net : Nat → NetOutcome)
    (b : Block) (hstore : store h = some b) :
    prepare_block_0 (.Hash h) fileContents deserialize true store net
      = ⟨.ok b, 2, 0⟩ := by
  simp [prepare_block_0, hstore]

/-- Witness for C1 at a concrete input: the store maps hash `5` to a block
whose own hash is `99 ≠ 5`, and resolution still returns it from storage with
zero network fetches (no re-verification on the storage path). -/
theorem c1_byhash_storage_hit_witness :
    prepare_block_0 (.Hash 5) (fun _ => none) (fun _ => none) true
      (fun k => if k = 5 then some ⟨99, 0⟩ else none) (fun _ => .failed)
      = ⟨.ok ⟨99, 0⟩, 2, 0⟩ :=
  c1_byhash_storage_hit 5 (fun _ => none) (fun _ => none)
    (fun k => if k = 5 then some ⟨99, 0⟩ else none) (fun _ => .failed)
    ⟨99, 0⟩ (by simp)

/-- Claim C6: for a `ByHash` genesis spec whose hash is absent from the block
store, exactly one network fetch is attempted (whatever its outcome), and if
the fetch fails — either a plain failure or a timeout — resolution fails with
`NotFoundError` and no other error kind. -/
theorem c6_byhash_storage_miss (h : Nat)
    (fileContents : Nat → Option (List Nat))
    (deserialize : List Nat → Option Block)
    (store : Nat → Option Block) (net : Nat → NetOutcome)
    (hstore : store h = none) :
    (prepare_block_0 (.Hash h) fileContents deserialize true store net).network_fetches = 1 ∧
    (net h = .failed →
      (prepare_block_0 (.Hash h) fileContents deserialize true store net).result
        = .error .NotFoundError) ∧
    (net h = .timeout →
      (prepare_block_0 (.Hash h) fileContents deserialize true store net).result
        = .error .NotFoundError) := by
  refine ⟨?_, ?_, ?_⟩
  · cases hnet : net h <;> simp [prepare_block_0, hstore, hnet]
  · intro hnet; simp [prepare_block_0, hstore, hnet]
  · intro hnet; simp [prepare_block_0, hstore, hnet]

/-- Witness for C6 at a concrete input: empty store, network always times out;
the trace shows one fetch and a `NotFoundError` result. -/
theorem c6_byhash_storage_miss_witness :
    (prepare_block_0 (.Hash 5) (fun _ => none) (fun _ => none) true
        (fun _ => none) (fun _ => .timeout)).network_fetches = 1 ∧
    (prepare_block_0 (.Hash 5) (fun _ => none) (fun _ => none) true
        (fun _ => none) (fun _ => .timeout)).result = .error .NotFoundError := by
  have h := c6_byhash_storage_miss 5 (fun _ => none) (fun _ => none)
    (fun _ => none) (fun _ => .timeout) rfl
  exact ⟨h.1, h.2.2 rfl⟩

/-- Claim C7: for an inline (file-path) genesis spec, resolution consults
neither the block store nor the network (both counters are zero and the
result is independent of both collaborators), and a deserialization failure
is terminal: the result is `DeserializeError`, with no fallback. -/
theorem c7_inline_no_fallback (path : Nat)
    (fileContents : Nat → Option (List Nat))
    (deserialize : List Nat → Option Block) (connectOk : Bool)
    (store store₂ : Nat → Option Block) (net net₂ : Nat → NetOutcome) :
    (prepare_block_0 (.Path path) fileContents deserialize connectOk store net).storage_reads
      = 0 ∧
    (prepare_block_0 (.Path path) fileContents deserialize connectOk store net).network_fetches
      = 0 ∧
    prepare_block_0 (.Path path) fileContents deserialize connectOk store net
      = prepare_block_0 (.Path path) fileContents deserialize connectOk store₂ net₂ ∧
    (∀ bytes, fileContents path = some bytes → deserialize bytes = none →
      (prepare_block_0 (.Path path) fileContents deserialize connectOk store net).result
        = .error .DeserializeError) := by
  refine ⟨?_, ?_, ?_, ?_⟩
  · cases hf : fileContents path with
    | none => simp [prepare_block_0, hf]
    | some bytes => cases hd : deserialize bytes <;> simp [prepare_block_0, hf, hd]
  · cases hf : fileContents path with
    | none => simp [prepare_block_0, hf]
    | some bytes => cases hd : deserialize bytes <;> simp [prepare_block_0, hf, hd]
  · rfl
  · intro bytes hf hd
    simp [prepare_block_0, hf, hd]

/-- Witness for C7 at a concrete input: the file holds bytes `[1]` that fail
to deserialize; the result is `DeserializeError` with zero storage reads and
zero network fetches, and is unchanged when the storage and network
collaborators are replaced. -/
theorem c7_inline_no_fallback_witness :
    (prepare_block_0 (.Path 0) (fun _ => some [1]) (fun _ => none) true
        (fun _ => none) (fun _ => .failed)).storage_reads = 0 ∧
    (prepare_block_0 (.Path 0) (fun _ => some [1]) (fun _ => none) true
        (fun _ => none) (fun _ => .failed)).network_fetches = 0 ∧
    prepare_block_0 (.Path 0) (fun _ => some [1]) (fun _ => none) true
        (fun _ => none) (fun _ => .failed)
      = prepare_block_0 (.Path 0) (fun _ => some [1]) (fun _ => none) true
        (fun k => some ⟨k, k⟩) (fun k => .ok ⟨k, k⟩) ∧
    (prepare_block_0 (.Path 0) (fun _ => some [1]) (fun _ => none) true
        (fun _ => none) (fun _ => .failed)).result = .error .DeserializeError := by
  have h := c7_inline_no_fallback 0 (fun _ => some [1]) (fun _ => none) true
    (fun _ => none) (fun k => some ⟨k, k⟩) (fun _ => .failed) (fun k => .ok ⟨k, k⟩)
  exact ⟨h.1, h.2.1, h.2.2.1, h.2.2.2 [1] rfl rfl⟩

/-- Error kinds surfaced by the blockchain component when loading a chain.
`Block0AlreadyInStorage` mirrors `blockchain::ErrorKind::Block0AlreadyInStorage`;
all other kinds are collapsed into `other`. -/
inductive BlockchainError where
  | Block0AlreadyInStorage
  | other (k : Nat)
deriving DecidableEq

/-- Mirror of `Blockchain::new(block0.header.hash(), storage, ttl)`: the part
relevant here is that it is keyed by block 0's hash. -/
structure Blockchain where
  block0_hash : Nat
deriving DecidableEq

/-- Mirror of `Tip::new(main_branch)`; a branch is opaque and modelled by a
natural number. -/
structure Tip where
  branch : Nat
deriving DecidableEq

/-- Embedding of `load_blockchain` (start_up/mod.rs). The two loading paths
`blockchain.load_from_block0(block0)` and `blockchain.load_from_storage(block0)`
are opaque collaborators, passed as their results. The code matches on the
error kind of the fresh path: `Block0AlreadyInStorage` falls back to the
storage path, any other error is returned; the final `?` propagates whatever
error the chosen path produced. -/
def load_blockchain (block0 : Block)
    (load_from_block0 : Except BlockchainError Nat)
    (load_from_storage : Except BlockchainError Nat) :
    Except BlockchainError (Blockchain × Tip) :=
  let blockchain : Blockchain := ⟨block0.hash⟩
  let main_branch : Except BlockchainError Nat :=
    match load_from_block0 with
    | .error e =>
        match e with
        | .Block0AlreadyInStorage => load_from_storage
        | _ => .error e
    | .ok branch => .ok branch
  match main_branch with
  | .error e => .error e
  | .ok branch => .ok (blockchain, ⟨branch⟩)

/-- Claim C3: bootstrap treats "block 0 already present" from the fresh path
as a non-error: it falls back to the storage path (whose success or failure is
returned unchanged, via `Except.map` below), any other fresh-path failure is
propagated unchanged, and — as long as the storage path does not itself report
the conflict, which it never does — the already-initialized conflict is never
surfaced to the caller. -/
theorem c3_bootstrap_resume (block0 : Block)
    (load_from_block0 load_from_storage : Except BlockchainError Nat) :
    (load_from_block0 = .error .Block0AlreadyInStorage →
      load_blockchain block0 load_from_block0 load_from_storage
        = load_from_storage.map (fun branch => (⟨block0.hash⟩, ⟨branch⟩))) ∧
    (∀ e, e ≠ .Block0AlreadyInStorage → load_from_block0 = .error e →
      load_blockchain block0 load_from_block0 load_from_storage = .error e) ∧
    (load_from_storage ≠ .error .Block0AlreadyInStorage →
      ∀ e, load_blockchain block0 load_from_block0 load_from_storage = .error e →
        e ≠ .Block0AlreadyInStorage) := by
  refine ⟨?_, ?_, ?_⟩
  · intro hfr
    cases load_from_storage <;> simp [load_blockchain, hfr, Except.map]
  · intro e he hfr
    cases e with
    | Block0AlreadyInStorage => exact absurd rfl he
    | other k => simp [load_blockchain, hfr]
  · intro hst e hres
    cases hfr : load_from_block0 with
    | ok branch => simp [load_blockchain, hfr] at hres
    | error efr =>
        cases efr with
        | Block0AlreadyInStorage =>
            cases hs : load_from_storage with
            | ok branch => simp [load_blockchain, hfr, hs] at hres
            | error est =>
                simp [load_blockchain, hfr, hs] at hres
                subst hres
                intro hcontra
                exact hst (by rw [hs, hcontra])
        | other k =>
            simp [load_blockchain, hfr] at hres
            subst hres
            simp

/-- Witness for C3 at concrete inputs: with the fresh path reporting the
conflict and the storage path returning branch `7`, bootstrap succeeds with
the storage branch; with the fresh path failing with another error `other 3`,
that error is propagated; and the conflict itself is not surfaced. -/
theorem c3_bootstrap_resume_witness :
    load_blockchain ⟨5, 0⟩ (.error .Block0AlreadyInStorage) (.ok 7)
      = (Except.ok 7).map (fun branch => ((⟨5⟩ : Blockchain), (⟨branch⟩ : Tip))) ∧
    load_blockchain ⟨5, 0⟩ (.error (.other 3)) (.ok 7) = .error (.other 3) ∧
    (∀ e, load_blockchain ⟨5, 0⟩ (.error .Block0AlreadyInStorage) (.ok 7) = .error e →
      e ≠ .Block0AlreadyInStorage) := by
  refine ⟨?_, ?_, ?_⟩
  · exact (c3_bootstrap_resume ⟨5, 0⟩ (.error .Block0AlreadyInStorage) (.ok 7)).1 rfl
  · exact (c3_bootstrap_resume ⟨5, 0⟩ (.error (.other 3)) (.ok 7)).2.1
      (.other 3) (by simp) rfl
  · exact (c3_bootstrap_resume ⟨5, 0⟩ (.error .Block0AlreadyInStorage) (.ok 7)).2.2
      (by simp)

/-- Mirror of `const CACHE_SIZE: usize = 1024` (sea_bottle/mod.rs). -/
def CACHE_SIZE : Nat := 1024

/-- Modelled from the spec: the `LruCache` type comes from the external `lru`
crate, which is not part of this repository; the spec (§3 DedupCache)
describes it as a bounded mapping with least-recently-used eviction when
full, where inserting an already-present key refreshes its recency. `keys`
lists the cached ids most-recently-used first; values are irrelevant to the
claims and omitted. `contains` does not touch recency (as in the crate). -/
structure LruCache where
  cap : Nat
  keys : List Nat
deriving DecidableEq

/-- Mirror of `LruCache::new(cap)`: an empty cache of the given capacity. -/
def LruCache.new (cap : Nat) : LruCache := ⟨cap, []⟩

/-- Mirror of `LruCache::contains`: membership test, no recency update. -/
def LruCache.contains (c : LruCache) (k : Nat) : Bool := decide (k ∈ c.keys)

/-- Modelled from the spec: `LruCache::put`. An already-present key is moved
to the front (recency refresh, no duplicate entry); a fresh key is inserted
at the front, evicting the least-recently-used entry (the last one) when the
cache is at capacity. -/
def LruCache.put (c : LruCache) (k : Nat) : LruCache :=
  if k ∈ c.keys then ⟨c.cap, k :: c.keys.erase k⟩
  else if c.keys.length = c.cap then ⟨c.cap, k :: c.keys.dropLast⟩
  else ⟨c.cap, k :: c.keys⟩

/-- Number of entries currently cached. -/
def LruCache.len (c : LruCache) : Nat := c.keys.length

/-- Mirror of `BottleRack` (sea_bottle/mod.rs), restricted to its `cache`
field; the topology handle and the two channels are opaque collaborators
that none of the claims touch. -/
structure BottleRack where
  cache : LruCache
deriving DecidableEq

/-- Mirror of `BottleRack::new`: a fresh rack with a cache of capacity
`CACHE_SIZE`. -/
def BottleRack.new : BottleRack := ⟨LruCache.new CACHE_SIZE⟩

/-- Embedding of `BottleRack::handle_blob`. The Rust method takes `&self`,
tests `!self.cache.contains(blob)` and, when the blob is unseen, calls
`broadcast_blob`; it never inserts into the cache. The returned `Bool`
records whether `broadcast_blob` was invoked (the "new blob" outcome), and
the returned rack is the (unchanged) receiver. -/
def BottleRack.handle_blob (r : BottleRack) (blob : Nat) : BottleRack × Bool :=
  if ¬ r.cache.contains blob then (r, true) else (r, false)

/-- Claim C2 (divergence): on a fresh rack, observing the same blob id twice
yields `(true, true)`, not the claimed `(true, false)` — `handle_blob` never
records the observed id (the cache is never written, and the rack is returned
unchanged), so the second observation again reports the blob as new. -/
theorem c2_observe_never_records :
    (BottleRack.new.handle_blob 0).2 = true ∧
    ((BottleRack.new.handle_blob 0).1.handle_blob 0).2 = true ∧
    (BottleRack.new.handle_blob 0).1 = BottleRack.new := by
  decide

/-- Inserting a key never changes the cache's capacity. -/
theorem LruCache.cap_put (c : LruCache) (k : Nat) : (c.put k).cap = c.cap := by
  unfold LruCache.put
  split_ifs <;> rfl

/-- Folding insertions over a list never changes the cache's capacity. -/
theorem foldl_put_cap (l : List Nat) : ∀ c : LruCache,
    (l.foldl LruCache.put c).cap = c.cap := by
  induction l with
  | nil => intro c; rfl
  | cons k t ih =>
      intro c
      rw [List.foldl_cons, ih (c.put k), LruCache.cap_put]

/-- Inserting distinct fresh keys that fit within the remaining capacity just
prepends them (in reverse order of insertion): no eviction happens below
capacity. -/
theorem foldl_put_fresh (l : List Nat) : ∀ c : LruCache, l.Nodup →
    (∀ k ∈ l, k ∉ c.keys) → c.keys.length + l.length ≤ c.cap →
    (l.foldl LruCache.put c).keys = l.reverse ++ c.keys := by
  induction l with
  | nil => intro c _ _ _; simp
  | cons k t ih =>
      intro c hnd hfresh hlen
      have hk : k ∉ c.keys := hfresh k (List.mem_cons_self k t)
      have hne : c.keys.length ≠ c.cap := by
        simp only [List.length_cons] at hlen; omega
      have hput : c.put k = ⟨c.cap, k :: c.keys⟩ := by
        simp [LruCache.put, hk, hne]
      have hnd' := List.nodup_cons.mp hnd
      have hfresh' : ∀ j ∈ t, j ∉ (⟨c.cap, k :: c.keys⟩ : LruCache).keys := by
        intro j hj
        simp only [List.mem_cons, not_or]
        exact ⟨fun hjk => hnd'.1 (hjk ▸ hj), hfresh j (List.mem_cons_of_mem k hj)⟩
      have hlen' : (⟨c.cap, k :: c.keys⟩ : LruCache).keys.length + t.length
          ≤ (⟨c.cap, k :: c.keys⟩ : LruCache).cap := by
        simp only [List.length_cons] at hlen ⊢; omega
      rw [List.foldl_cons, hput, ih ⟨c.cap, k :: c.keys⟩ hnd'.2 hfresh' hlen']
      simp

/-- Claim C5: the dedup cache has fixed capacity `CACHE_SIZE = 1024`; an
insertion never pushes the cardinality above capacity; and inserting
`CACHE_SIZE + 1` distinct ids `a :: t` into the fresh rack's cache leaves
exactly the last `CACHE_SIZE` of them (`t`, most recent first), i.e. exactly
one id was evicted, namely the least-recently-touched one `a` (inserted
first, never touched again), and the size remains `CACHE_SIZE`. -/
theorem c5_cache_bounded_lru (a : Nat) (t : List Nat)
    (hnd : (a :: t).Nodup) (hlen : t.length = CACHE_SIZE) :
    CACHE_SIZE = 1024 ∧
    BottleRack.new.cache.cap = CACHE_SIZE ∧
    (∀ (c : LruCache) (k : Nat), 0 < c.cap → c.len ≤ c.cap → (c.put k).len ≤ c.cap) ∧
    ((a :: t).foldl LruCache.put BottleRack.new.cache).keys = t.reverse ∧
    ((a :: t).foldl LruCache.put BottleRack.new.cache).len = CACHE_SIZE ∧
    ((a :: t).foldl LruCache.put BottleRack.new.cache).contains a = false ∧
    (∀ k ∈ t, ((a :: t).foldl LruCache.put BottleRack.new.cache).contains k = true) := by
  have hbound : ∀ (c : LruCache) (k : Nat), 0 < c.cap → c.len ≤ c.cap →
      (c.put k).len ≤ c.cap := by
    intro c k hcap hle
    by_cases hmem : k ∈ c.keys
    · have hpos : 0 < c.keys.length := List.length_pos.mpr (List.ne_nil_of_mem hmem)
      simp only [LruCache.put, hmem, if_pos, LruCache.len, List.length_cons,
        List.length_erase_of_mem hmem] at hle ⊢
      omega
    · by_cases hfull : c.keys.length = c.cap
      · simp only [LruCache.put, hmem, if_neg, if_pos, hfull, LruCache.len,
          List.length_cons, List.length_dropLast, ite_false, ite_true,
          not_false_eq_true]
        omega
      · simp only [LruCache.put, hmem, hfull, LruCache.len, List.length_cons,
          ite_false, not_false_eq_true] at hle ⊢
        omega
  have htne : t ≠ [] := by
    intro h
    rw [h] at hlen
    simp [CACHE_SIZE] at hlen
  obtain ⟨t₂, z, ht⟩ := (List.eq_nil_or_concat t).resolve_left htne
  subst ht
  simp only [List.concat_eq_append] at hnd hlen ⊢
  have hlen₂ : t₂.length + 1 = CACHE_SIZE := by
    simpa using hlen
  -- dissect the nodup hypothesis
  have hsub : List.Sublist (a :: t₂) (a :: (t₂ ++ [z])) :=
    List.Sublist.cons₂ a (List.sublist_append_left t₂ [z])
  have hnd₂ : (a :: t₂).Nodup := List.Nodup.sublist hsub hnd
  have haz : a ≠ z := by
    have : a ∉ t₂ ++ [z] := (List.nodup_cons.mp hnd).1
    simp only [List.mem_append, List.mem_singleton, not_or] at this
    exact this.2
  have hat₂ : a ∉ t₂ := (List.nodup_cons.mp hnd₂).1
  have hzt₂ : z ∉ t₂ := by
    have := (List.nodup_cons.mp hnd).2
    rcases List.nodup_append.mp this with ⟨-, -, hdisj⟩
    intro hz
    exact hdisj hz (List.mem_singleton.mpr rfl)
  -- the first CACHE_SIZE insertions fill the cache without eviction
  have hfill : ((a :: t₂).foldl LruCache.put BottleRack.new.cache).keys
      = t₂.reverse ++ [a] := by
    have := foldl_put_fresh (a :: t₂) BottleRack.new.cache hnd₂
      (by intro k _; simp [BottleRack.new, LruCache.new])
      (by simp only [BottleRack.new, LruCache.new, List.length_cons,
            List.length_nil]
          omega)
    simpa using this
  have hcap : ((a :: t₂).foldl LruCache.put BottleRack.new.cache).cap = CACHE_SIZE :=
    foldl_put_cap (a :: t₂) BottleRack.new.cache
  -- the final insertion evicts exactly the least-recently-used entry `a`
  have hput_step : ∀ cfull : LruCache, z ∉ cfull.keys →
      cfull.keys.length = cfull.cap → cfull.keys = t₂.reverse ++ [a] →
      (cfull.put z).keys = z :: t₂.reverse := by
    intro cfull h1 h2 h3
    unfold LruCache.put
    rw [if_neg h1, if_pos h2, h3]
    simp
  have hzmem : z ∉ ((a :: t₂).foldl LruCache.put BottleRack.new.cache).keys := by
    rw [hfill]
    simp only [List.mem_append, List.mem_reverse, List.mem_singleton, not_or]
    exact ⟨hzt₂, fun h => haz h.symm⟩
  have hatcap : ((a :: t₂).foldl LruCache.put BottleRack.new.cache).keys.length
      = ((a :: t₂).foldl LruCache.put BottleRack.new.cache).cap := by
    rw [hfill, hcap]
    simp only [List.length_append, List.length_reverse, List.length_singleton]
    omega
  have hfinal : ((a :: (t₂ ++ [z])).foldl LruCache.put BottleRack.new.cache).keys
      = z :: t₂.reverse := by
    have hassoc : (a :: (t₂ ++ [z])) = (a :: t₂) ++ [z] := rfl
    rw [hassoc, List.foldl_append, List.foldl_cons, List.foldl_nil]
    exact hput_step _ hzmem hatcap hfill
  have hrev : (t₂ ++ [z]).reverse = z :: t₂.reverse := by simp
  refine ⟨rfl, rfl, hbound, by rw [hfinal, hrev], ?_, ?_, ?_⟩
  · rw [LruCache.len, hfinal]
    simp only [List.length_cons, List.length_reverse]
    omega
  · rw [LruCache.contains, hfinal]
    simp only [List.mem_cons, List.mem_reverse, decide_eq_false_iff_not, not_or]
    exact ⟨haz, hat₂⟩
  · intro k hk
    rw [LruCache.contains, hfinal]
    simp only [List.mem_append, List.mem_singleton] at hk
    rcases hk with hk | hk
    · simp [List.mem_cons, hk]
    · simp [hk]

/-- Witness for C5 at a concrete input: inserting the 1025 distinct ids
`1024 :: List.range 1024` into the fresh rack's cache. -/
theorem c5_cache_bounded_lru_witness :
    CACHE_SIZE = 1024 ∧
    BottleRack.new.cache.cap = CACHE_SIZE ∧
    (∀ (c : LruCache) (k : Nat), 0 < c.cap → c.len ≤ c.cap → (c.put k).len ≤ c.cap) ∧
    ((1024 :: List.range 1024).foldl LruCache.put BottleRack.new.cache).keys
      = (List.range 1024).reverse ∧
    ((1024 :: List.range 1024).foldl LruCache.put BottleRack.new.cache).len
      = CACHE_SIZE ∧
    ((1024 :: List.range 1024).foldl LruCache.put BottleRack.new.cache).contains 1024
      = false ∧
    (∀ k ∈ List.range 1024,
      ((1024 :: List.range 1024).foldl LruCache.put BottleRack.new.cache).contains k
        = true) :=
  c5_cache_bounded_lru 1024 (List.range 1024)
    (by simp [List.nodup_cons, List.nodup_range, List.mem_range])
    (by simp [List.length_range, CACHE_SIZE])

/-- Stake-pool identifier (`chain_impl_mockchain::certificate::PoolId`). -/
abbrev PoolId := Nat

/-- Aggregate stake of a pool; only the `total` field is used by the code. -/
structure Stake where
  total : Nat
deriving DecidableEq

/-- Mirror of `chain_impl_mockchain::stake::PoolStakeInformation`, restricted
to the `stake` field the comparator reads. -/
structure PoolStakeInformation where
  stake : Stake
deriving DecidableEq

/-- Stake distribution snapshot; `to_pools` is the pool map, modelled as its
association list in iteration order. -/
structure StakeDistribution where
  to_pools : List (PoolId × PoolStakeInformation)
deriving DecidableEq

/-- Epoch leadership schedule, exposing `stake_distribution()`. -/
structure Leadership where
  stake_distribution : Option StakeDistribution
deriving DecidableEq

/-- Mirror of `blockchain::Ref` as used here: it only provides
`epoch_leadership_schedule()`. -/
structure Ref where
  epoch_leadership_schedule : Leadership
deriving DecidableEq

/-- The ordering relation induced by a Rust comparator on the pool pairs:
`a` may stay before `b` whenever the comparator does not strictly order `b`
before `a`. A stable sort by a comparator is a stable sort with respect to
this relation. -/
abbrev sortRel (comp : PoolStakeInformation → PoolStakeInformation → Ordering)
    (a b : PoolId × PoolStakeInformation) : Prop :=
  comp a.2 b.2 ≠ Ordering.gt

/-- Embedding of `stake_pools_sorted_by` (sea_bottle/mod.rs): if the epoch has
no stake distribution the result is the empty vector; otherwise the pool
pairs are stably sorted ascending by the comparator (Rust's `sort_by` is a
stable ascending sort, embedded as insertion sort), mapped to their ids, and
the whole sequence is reversed. -/
def stake_pools_sorted_by (block_ref : Ref)
    (comp : PoolStakeInformation → PoolStakeInformation → Ordering) : List PoolId :=
  match block_ref.epoch_leadership_schedule.stake_distribution with
  | none => []
  | some distribution =>
      ((distribution.to_pools.insertionSort (sortRel comp)).map Prod.fst).reverse

/-- Mirror of `cmp_pool_stake_information_by_stake_total` (sea_bottle/mod.rs):
compare two pools by `stake.total`. -/
def cmp_pool_stake_information_by_stake_total
    (pool_a pool_b : PoolStakeInformation) : Ordering :=
  compare pool_a.stake.total pool_b.stake.total

/-- The sort relation induced by the reference comparator is exactly `≤` on
total stake. -/
theorem sortRel_cmp_iff (a b : PoolId × PoolStakeInformation) :
    sortRel cmp_pool_stake_information_by_stake_total a b ↔
      a.2.stake.total ≤ b.2.stake.total := by
  simp [sortRel, cmp_pool_stake_information_by_stake_total, Nat.compare_eq_gt,
    Nat.not_lt]

/-- Claim C4: for every non-empty stake snapshot, ranking with the reference
comparator is obtained by sorting the pool pairs ascending by total stake
and reversing, so the ids come out in descending order of total stake. -/
theorem c4_ranking_descending (dist : List (PoolId × PoolStakeInformation))
    (_hne : dist ≠ []) :
    ∃ sorted : List (PoolId × PoolStakeInformation),
      List.Perm sorted dist ∧
      List.Pairwise (fun a b => a.2.stake.total ≤ b.2.stake.total) sorted ∧
      stake_pools_sorted_by ⟨⟨some ⟨dist⟩⟩⟩ cmp_pool_stake_information_by_stake_total
        = (sorted.map Prod.fst).reverse := by
  haveI : IsTotal (PoolId × PoolStakeInformation)
      (sortRel cmp_pool_stake_information_by_stake_total) := by
    constructor
    intro a b
    rw [sortRel_cmp_iff, sortRel_cmp_iff]
    exact Nat.le_total _ _
  haveI : IsTrans (PoolId × PoolStakeInformation)
      (sortRel cmp_pool_stake_information_by_stake_total) := by
    constructor
    intro a b c hab hbc
    rw [sortRel_cmp_iff] at hab hbc ⊢
    exact le_trans hab hbc
  refine ⟨dist.insertionSort (sortRel cmp_pool_stake_information_by_stake_total),
    List.perm_insertionSort _ _, ?_, rfl⟩
  exact List.Pairwise.imp (fun hab => (sortRel_cmp_iff _ _).mp hab)
    (List.sorted_insertionSort (sortRel cmp_pool_stake_information_by_stake_total) dist)

/-- Witness for C4 at the spec's concrete input: stakes `{A ↦ 10, B ↦ 50,
C ↦ 30}` (ids A = 0, B = 1, C = 2) rank as `[B, C, A] = [1, 2, 0]`. -/
theorem c4_ranking_descending_witness :
    stake_pools_sorted_by ⟨⟨some ⟨[(0, ⟨⟨10⟩⟩), (1, ⟨⟨50⟩⟩), (2, ⟨⟨30⟩⟩)]⟩⟩⟩
        cmp_pool_stake_information_by_stake_total = [1, 2, 0] ∧
    (∃ sorted : List (PoolId × PoolStakeInformation),
      List.Perm sorted [(0, ⟨⟨10⟩⟩), (1, ⟨⟨50⟩⟩), (2, ⟨⟨30⟩⟩)] ∧
      List.Pairwise (fun a b => a.2.stake.total ≤ b.2.stake.total) sorted ∧
      stake_pools_sorted_by ⟨⟨some ⟨[(0, ⟨⟨10⟩⟩), (1, ⟨⟨50⟩⟩), (2, ⟨⟨30⟩⟩)]⟩⟩⟩
        cmp_pool_stake_information_by_stake_total = (sorted.map Prod.fst).reverse) :=
  ⟨by decide, c4_ranking_descending [(0, ⟨⟨10⟩⟩), (1, ⟨⟨50⟩⟩), (2, ⟨⟨30⟩⟩)] (by decide)⟩

/-- Claim C8 (counterexample): two pools with equal total stake, listed in the
snapshot as id `0` before id `1`, come out of the ranking as `[1, 0]` — the
final reversal flips the relative order that the stable sort preserved, so
the pre-sort relative order is *not* preserved in the output. -/
theorem c8_tie_counterexample :
    cmp_pool_stake_information_by_stake_total ⟨⟨10⟩⟩ ⟨⟨10⟩⟩ = Ordering.eq ∧
    stake_pools_sorted_by ⟨⟨some ⟨[(0, ⟨⟨10⟩⟩), (1, ⟨⟨10⟩⟩)]⟩⟩⟩
      cmp_pool_stake_information_by_stake_total = [1, 0] := by
  decide

/-- Claim C8 as amended: for any two pools of equal total stake occurring (in
this order) in the snapshot, the ranking output contains their ids in the
*reversed* relative order: the stable ascending sort preserves their pre-sort
order and the final whole-list reversal flips it. -/
theorem c8_tie_order_reversed (dist : List (PoolId × PoolStakeInformation))
    (a b : PoolId × PoolStakeInformation)
    (hab : List.Sublist [a, b] dist)
    (heq : a.2.stake.total = b.2.stake.total) :
    List.Sublist [b.1, a.1]
      (stake_pools_sorted_by ⟨⟨some ⟨dist⟩⟩⟩
        cmp_pool_stake_information_by_stake_total) := by
  have hr : sortRel cmp_pool_stake_information_by_stake_total a b := by
    rw [sortRel_cmp_iff]
    exact le_of_eq heq
  have h1 := List.pair_sublist_insertionSort hr hab
  have h2 := List.Sublist.map Prod.fst h1
  have h3 := List.Sublist.reverse h2
  simpa [stake_pools_sorted_by] using h3

/-- Witness for the amended C8 at a concrete input: the two equal-stake pools
`(0, 10)` and `(1, 10)` appear in the output with id `1` before id `0`. -/
theorem c8_tie_order_reversed_witness :
    List.Sublist [1, 0]
      (stake_pools_sorted_by ⟨⟨some ⟨[(0, ⟨⟨10⟩⟩), (1, ⟨⟨10⟩⟩)]⟩⟩⟩
        cmp_pool_stake_information_by_stake_total) :=
  c8_tie_order_reversed [(0, ⟨⟨10⟩⟩), (1, ⟨⟨10⟩⟩)] (0, ⟨⟨10⟩⟩) (1, ⟨⟨10⟩⟩)
    (List.Sublist.refl _) rfl

/-- Claim C9: querying a chain reference whose epoch has no stake-distribution
snapshot yields the empty sequence (the function is total — it cannot fail). -/
theorem c9_no_snapshot_empty (block_ref : Ref)
    (comp : PoolStakeInformation → PoolStakeInformation → Ordering)
    (h : block_ref.epoch_leadership_schedule.stake_distribution = none) :
    stake_pools_sorted_by block_ref comp = [] := by
  unfold stake_pools_sorted_by
  rw [h]

/-- Witness for C9 at a concrete input. -/
theorem c9_no_snapshot_empty_witness :
    stake_pools_sorted_by ⟨⟨none⟩⟩ cmp_pool_stake_information_by_stake_total = [] :=
  c9_no_snapshot_empty ⟨⟨none⟩⟩ cmp_pool_stake_information_by_stake_total rfl

/-- Claim C10: for every stake snapshot and comparator, the ranking output is
a permutation of the snapshot's pool ids; in particular it has the same
length, and (the snapshot being a map, its keys distinct) every pool id of
the snapshot occurs in the output exactly once. -/
theorem c10_ranking_permutation (dist : List (PoolId × PoolStakeInformation))
    (comp : PoolStakeInformation → PoolStakeInformation → Ordering)
    (hnd : (dist.map Prod.fst).Nodup) :
    List.Perm (stake_pools_sorted_by ⟨⟨some ⟨dist⟩⟩⟩ comp) (dist.map Prod.fst) ∧
    (stake_pools_sorted_by ⟨⟨some ⟨dist⟩⟩⟩ comp).length = dist.length ∧
    (∀ pid ∈ dist.map Prod.fst,
      (stake_pools_sorted_by ⟨⟨some ⟨dist⟩⟩⟩ comp).count pid = 1) := by
  have hperm : List.Perm (stake_pools_sorted_by ⟨⟨some ⟨dist⟩⟩⟩ comp)
      (dist.map Prod.fst) := by
    have h1 : stake_pools_sorted_by ⟨⟨some ⟨dist⟩⟩⟩ comp
        = ((dist.insertionSort (sortRel comp)).map Prod.fst).reverse := rfl
    rw [h1]
    exact (List.reverse_perm _).trans (List.Perm.map Prod.fst
      (List.perm_insertionSort _ _))
  refine ⟨hperm, ?_, ?_⟩
  · rw [hperm.length_eq, List.length_map]
  · intro pid hpid
    rw [hperm.count_eq]
    exact List.count_eq_one_of_mem hnd hpid

/-- Witness for C10 at a concrete input: the three-pool snapshot of C4. -/
theorem c10_ranking_permutation_witness :
    List.Perm
      (stake_pools_sorted_by ⟨⟨some ⟨[(0, ⟨⟨10⟩⟩), (1, ⟨⟨50⟩⟩), (2, ⟨⟨30⟩⟩)]⟩⟩⟩
        cmp_pool_stake_information_by_stake_total)
      (([(0, ⟨⟨10⟩⟩), (1, ⟨⟨50⟩⟩), (2, ⟨⟨30⟩⟩)] :
        List (PoolId × PoolStakeInformation)).map Prod.fst) ∧
    (stake_pools_sorted_by ⟨⟨some ⟨[(0, ⟨⟨10⟩⟩), (1, ⟨⟨50⟩⟩), (2, ⟨⟨30⟩⟩)]⟩⟩⟩
        cmp_pool_stake_information_by_stake_total).length
      = ([(0, ⟨⟨10⟩⟩), (1, ⟨⟨50⟩⟩), (2, ⟨⟨30⟩⟩)] :
        List (PoolId × PoolStakeInformation)).length ∧
    (∀ pid ∈ ([(0, ⟨⟨10⟩⟩), (1, ⟨⟨50⟩⟩), (2, ⟨⟨30⟩⟩)] :
        List (PoolId × PoolStakeInformation)).map Prod.fst,
      (stake_pools_sorted_by ⟨⟨some ⟨[(0, ⟨⟨10⟩⟩), (1, ⟨⟨50⟩⟩), (2, ⟨⟨30⟩⟩)]⟩⟩⟩
        cmp_pool_stake_information_by_stake_total).count pid = 1) :=
  c10_ranking_permutation [(0, ⟨⟨10⟩⟩), (1, ⟨⟨50⟩⟩), (2, ⟨⟨30⟩⟩)]
    cmp_pool_stake_information_by_stake_total (by decide)

end Jormungandr
